import Mathlib

/-!
Verification of the solanatokenseller reliability core.

The definitions below are shallow embeddings of the JavaScript sources:
  * `src/src/index.js`                 (ApiClient: retrying HTTP executor)
  * `src/src/services/jupiterService.js` (quote optimizer, quote math, chunking)
  * `src/src/services/walletService.js`  (wallet-info cache)
  * `src/jupiter.md`                     (backend executeSwapService: confirmation
                                          loop and fee collection)

JavaScript numbers are IEEE-754 binary64 values.  Integer arithmetic in the
sources stays inside the 2^53 exact range and is embedded as ℕ/ℤ; the two
genuinely fractional computations (`calculateMinimumOutput` and the fee
computation `inAmount * FEE_PERCENTAGE`) are embedded exactly using `fl`, the
round-to-nearest-even rounding of a rational to 53 significant bits, which is
precisely the binary64 rounding for the magnitudes involved (no overflow, no
subnormals).
-/

namespace TokenSeller

/-- Number of binary digits of `n` (auxiliary, fuel-driven so that it reduces
in the kernel; the fuel is the number itself, which always suffices). -/
def bitsAux : ℕ → ℕ → ℕ
  | 0, _ => 0
  | fuel + 1, n => if n = 0 then 0 else bitsAux fuel (n / 2) + 1

/-- Number of binary digits of `n`: `bitlen 0 = 0` and
`2^(bitlen n - 1) ≤ n < 2^(bitlen n)` for `n ≥ 1`. -/
def bitlen (n : ℕ) : ℕ := bitsAux n n


/-- Floor of the base-2 logarithm of a positive rational, computed from the
bit lengths of numerator and denominator. -/
def qexp (q : ℚ) : ℤ :=
  let e0 : ℤ := (bitlen q.num.natAbs : ℤ) - (bitlen q.den : ℤ)
  if q < 2 ^ e0 then e0 - 1 else e0

/-- Round a rational to the nearest integer, ties to even
(the IEEE-754 default rounding applied to an integer target). -/
def rne (x : ℚ) : ℤ :=
  let f := ⌊x⌋
  let r := x - (f : ℚ)
  if r < 1 / 2 then f
  else if 1 / 2 < r then f + 1
  else if f % 2 = 0 then f else f + 1

/-- Round a nonnegative rational to 53 significant binary digits, nearest,
ties to even: the value of the IEEE-754 binary64 closest to `q` (for the
magnitudes appearing in this development; by convention `fl q = 0` for
`q ≤ 0`, and only `q ≥ 0` ever arises). -/
def fl (q : ℚ) : ℚ :=
  if q ≤ 0 then 0
  else (rne (q * 2 ^ ((52 : ℤ) - qexp q)) : ℚ) * 2 ^ (qexp q - (52 : ℤ))

/-! ### Configuration constants  (src/src/config/constants.js) -/

def MIN_SLIPPAGE_BPS : ℕ := 50
def DEFAULT_SLIPPAGE_BPS : ℕ := 75
def MAX_SLIPPAGE_BPS : ℕ := 100
def MAX_RETRIES : ℕ := 3
def RETRY_DELAY : ℕ := 2000
def MAX_CHUNK_SIZE : ℕ := 100000
def MAX_PRICE_IMPACT_PCT : ℚ := 5

/-! ### ApiClient  (src/src/index.js, lines 495-712)

`executeRequest` performs up to `retries + 1` tries of the underlying HTTP
call, where `retries` is the per-call override when given and the configured
maximum otherwise; `isRetryableError` classifies failures; `formatError`
wraps the raised error.  The HTTP layer itself is abstracted as an oracle
`a : ℕ → Except ReqError D` giving the outcome of each (1-indexed) try. -/

structure ApiClient where
  maxRetries : ℕ
  retryDelay : ℕ

/-- Transport-level error codes distinguished by the source
(`error.code` of the axios error). -/
inductive ErrCode where
  | ECONNRESET | ENOTFOUND | ECONNREFUSED | ECONNABORTED | ETIMEDOUT | OTHER
deriving DecidableEq

/-- The shape of an axios failure as consumed by `isRetryableError` /
`formatError`: the optional transport code, the optional HTTP response
status (present exactly when a response arrived), and whether a request
was sent at all. -/
structure ReqError where
  code : Option ErrCode
  status : Option ℕ
  hasRequest : Bool
deriving DecidableEq

/-- Model of `ApiClient.isRetryableError` (src/src/index.js lines 652-670). -/
def isRetryableError (e : ReqError) : Bool :=
  if e.code = some .ECONNRESET ∨ e.code = some .ENOTFOUND ∨ e.code = some .ECONNREFUSED then
    true
  else if e.code = some .ECONNABORTED then
    true
  else
    match e.status with
    | some s => if 500 ≤ s ∨ s = 429 ∨ s = 408 then true else false
    | none => false

/-- The wrapped error raised by `ApiClient.formatError`
(src/src/index.js lines 675-705); message text is abstracted to its branch. -/
inductive FormattedError where
  | http404 | http502 | http500
  | httpOther (status : ℕ)
  | networkTimeout | networkError | requestError
deriving DecidableEq

def formatError (e : ReqError) : FormattedError :=
  match e.status with
  | some s =>
    if s = 404 then .http404
    else if s = 502 then .http502
    else if s = 500 then .http500
    else .httpOther s
  | none =>
    if e.hasRequest then
      if e.code = some .ETIMEDOUT then .networkTimeout else .networkError
    else .requestError

/-- Observable outcome of `executeRequest`: how many tries were made, which
sleeps (in ms) were inserted between tries, and the final result. -/
structure ExecResult (D : Type) where
  tries : ℕ
  sleeps : List ℕ
  out : Except FormattedError D

/-- The `for (attempt = 1; attempt <= retries + 1; attempt++)` loop body of
`ApiClient.executeRequest` (src/src/index.js lines 561-647).  `fuel` is the
number of loop iterations still allowed (`retries + 2 - attempt`); the
`fuel = 0` case is unreachable from `executeRequest`. -/
def executeRequestGo {D : Type} (c : ApiClient) (a : ℕ → Except ReqError D)
    (retries : ℕ) : ℕ → ℕ → ExecResult D
  | _, 0 => ⟨0, [], .error .requestError⟩
  | attempt, fuel + 1 =>
    match a attempt with
    | .ok d => ⟨attempt, [], .ok d⟩
    | .error e =>
      if retries < attempt ∨ isRetryableError e = false then
        ⟨attempt, [], .error (formatError e)⟩
      else
        let rest := executeRequestGo c a retries (attempt + 1) fuel
        ⟨rest.tries, c.retryDelay * 2 ^ (attempt - 1) :: rest.sleeps, rest.out⟩

/-- Model of `ApiClient.executeRequest` (src/src/index.js lines 561-647):
`retries = customRetries !== null ? customRetries : this.maxRetries`. -/
def executeRequest {D : Type} (c : ApiClient) (a : ℕ → Except ReqError D)
    (customRetries : Option ℕ) : ExecResult D :=
  let retries := customRetries.getD c.maxRetries
  executeRequestGo c a retries 1 (retries + 1)

/-- Spec-side retryability predicate, written from the specification's words:
retryable exactly for connection reset / refused / host-not-found, a request
timeout, or an HTTP response with status 429, 408 or ≥ 500. -/
def retryableSpec (e : ReqError) : Prop :=
  e.code = some .ECONNRESET ∨ e.code = some .ECONNREFUSED ∨ e.code = some .ENOTFOUND
    ∨ e.code = some .ECONNABORTED
    ∨ (∃ s, e.status = some s ∧ (s = 429 ∨ s = 408 ∨ 500 ≤ s))

/-! ### JupiterService quote pipeline  (src/src/services/jupiterService.js)

The HTTP fetch for one slippage tier is abstracted as an oracle
`fetch : ℕ → Except String (Option RawQuote)`: `.error e` is a thrown
network/HTTP error, `.ok none` a 200-response without the `quoteResponse`
field, `.ok (some q)` a response carrying quote `q`.  (The input-independent
mint-format validation, lines 177-178, that precedes the request is folded
into the oracle: when it throws, every tier fails identically.) -/

/-- A quote object as received from the API.  `Option` encodes a missing
(JS-falsy) field; the amounts carry the `parseInt`-ed numeric value. -/
structure RawQuote where
  inputMint : Option String
  outputMint : Option String
  inAmount : Option ℤ
  outAmount : Option ℤ
  priceImpactPct : Option ℚ
  routePlanLength : Option ℕ

/-- Model of `JupiterService.validateQuote` (lines 452-477): the four required fields
must be present and both amounts strictly positive; a high price impact only
logs a warning and never rejects. -/
def validateQuote (q : RawQuote) : Except String Unit :=
  if q.inputMint.isNone then .error "Invalid quote: missing inputMint"
  else if q.outputMint.isNone then .error "Invalid quote: missing outputMint"
  else if q.inAmount.isNone then .error "Invalid quote: missing inAmount"
  else if q.outAmount.isNone then .error "Invalid quote: missing outAmount"
  else if q.inAmount.getD 0 ≤ 0 then .error "Invalid quote: input amount must be positive"
  else if q.outAmount.getD 0 ≤ 0 then .error "Invalid quote: output amount must be positive"
  else .ok ()

/-- Model of `JupiterService.calculatePrice` (lines 500-507): `outAmount / inAmount`
as a binary64 division (0 when the input amount is 0). -/
def calculatePrice (inAmount outAmount : ℤ) : ℚ :=
  if inAmount = 0 then 0 else fl ((outAmount : ℚ) / (inAmount : ℚ))

/-- Model of `JupiterService.calculateMinimumOutput` (lines 512-517):
`Math.floor(outputAmount * ((10000 - slippageBps) / 10000))` computed in
binary64: the division result is one rounding, the product a second one,
`Math.floor` is exact. -/
def calculateMinimumOutput (outAmount : ℤ) (slippageBps : ℕ) : ℤ :=
  ⌊fl ((outAmount : ℚ) * fl (((10000 : ℚ) - (slippageBps : ℚ)) / 10000))⌋

/-- The quote as returned by `enhanceQuote` (spread of the raw quote plus
derived fields; the wall-clock `timestamp` field is omitted). -/
structure EnhancedQuote where
  inputMint : Option String
  outputMint : Option String
  inAmount : Option ℤ
  outAmount : Option ℤ
  slippageBps : ℕ
  price : ℚ
  minimumOutput : ℤ
  priceImpactPct : ℚ
  routeLength : ℕ

/-- Model of `JupiterService.enhanceQuote` (lines 482-495). -/
def enhanceQuote (q : RawQuote) (slippageBps : ℕ) : EnhancedQuote :=
  { inputMint := q.inputMint
    outputMint := q.outputMint
    inAmount := q.inAmount
    outAmount := q.outAmount
    slippageBps := slippageBps
    price := calculatePrice (q.inAmount.getD 0) (q.outAmount.getD 0)
    minimumOutput := calculateMinimumOutput (q.outAmount.getD 0) slippageBps
    priceImpactPct := q.priceImpactPct.getD 0
    routeLength := q.routePlanLength.getD 1 }

/-- Model of `JupiterService.getQuote` (lines 172-308) for one slippage tier over the
response oracle: missing `quoteResponse` or failed validation is thrown and
re-wrapped by the method's catch (the special-cased 502/400 rewordings only
change message text). -/
def getQuote (fetch : ℕ → Except String (Option RawQuote)) (slippageBps : ℕ) :
    Except String EnhancedQuote :=
  match fetch slippageBps with
  | .error e => .error ("Failed to get quote: " ++ e)
  | .ok none => .error "Failed to get quote: Invalid response format: missing quoteResponse"
  | .ok (some quote) =>
    match validateQuote quote with
    | .error e => .error ("Failed to get quote: " ++ e)
    | .ok _ => .ok (enhanceQuote quote slippageBps)

/-- The `for (const slippage of slippageOptions)` loop of
`JupiterService.getOptimalQuote` (lines 329-353): the first tier whose
`getQuote` succeeds wins, per-tier failures are swallowed. -/
def getOptimalQuoteGo (g : ℕ → Except String EnhancedQuote) :
    List ℕ → Except String EnhancedQuote
  | [] => .error "No valid quotes received"
  | s :: rest =>
    match g s with
    | .ok q => .ok q
    | .error _ => getOptimalQuoteGo g rest

/-- Model of `JupiterService.getOptimalQuote` (lines 313-362). -/
def getOptimalQuote (fetch : ℕ → Except String (Option RawQuote)) :
    Except String EnhancedQuote :=
  match getOptimalQuoteGo (getQuote fetch)
      [MIN_SLIPPAGE_BPS, DEFAULT_SLIPPAGE_BPS, MAX_SLIPPAGE_BPS] with
  | .ok q => .ok q
  | .error e => .error ("Failed to get optimal quote: " ++ e)

/-- Spec-side minimum output, written from the specification's words:
`floor(outAmount * (10000 - slippageBps) / 10000)` in exact integer
arithmetic. -/
def specMinimumOutput (outAmount slippageBps : ℕ) : ℕ :=
  (outAmount * (10000 - slippageBps)) / 10000

/-! ### Order chunking  (src/src/services/jupiterService.js lines 534-563) -/

/-- Chunk-size selection of `calculateOptimalChunks`: start from
`MAX_CHUNK_SIZE`, halve if the price impact exceeds 2, quarter if it
exceeds 4 (the second `if` overrides the first). -/
def chunkSizeFor (priceImpactPct : ℚ) : ℕ :=
  let c1 := MAX_CHUNK_SIZE
  let c2 := if priceImpactPct > 2 then MAX_CHUNK_SIZE / 2 else c1
  if priceImpactPct > 4 then MAX_CHUNK_SIZE / 4 else c2

/-- The `while (remaining > 0)` loop of `calculateOptimalChunks`.  The
positivity hypothesis records what the source guarantees (the chunk size is
one of 100000 / 50000 / 25000) and is what makes the loop terminate. -/
def chunksGo (chunkSize : ℕ) (hpos : 0 < chunkSize) (remaining : ℕ) : List ℕ :=
  if h : remaining = 0 then []
  else
    let currentChunk := min chunkSize remaining
    currentChunk :: chunksGo chunkSize hpos (remaining - currentChunk)
termination_by remaining
decreasing_by omega

/-- Model of `JupiterService.calculateOptimalChunks` (lines 534-563). -/
def calculateOptimalChunks (totalAmount : ℕ) (priceImpactPct : ℚ) : List ℕ :=
  chunksGo (chunkSizeFor priceImpactPct)
    (by unfold chunkSizeFor MAX_CHUNK_SIZE; split_ifs <;> norm_num) totalAmount

/-- Spec-side selected chunk size, written from the claim's words:
`MAX_CHUNK_SIZE`, halved when the price impact exceeds 2, quartered when it
exceeds 4. -/
def specSelectedChunkSize (priceImpactPct : ℚ) : ℕ :=
  if priceImpactPct > 4 then MAX_CHUNK_SIZE / 4
  else if priceImpactPct > 2 then MAX_CHUNK_SIZE / 2
  else MAX_CHUNK_SIZE

/-! ### WalletService cache  (src/src/services/walletService.js) -/

structure WalletInfo where
  publicKey : String
  balanceSol : ℚ
  balanceLamports : ℤ
  lastUpdated : ℕ
deriving DecidableEq

/-- The mutable fields of the `WalletService` singleton. -/
structure WalletState where
  walletInfo : Option WalletInfo
  lastBalanceCheck : Option ℕ
deriving DecidableEq

/-- Response of `GET wallets/mother/:publicKey`. -/
structure WalletApiResponse where
  publicKey : Option String
  balanceSol : Option ℚ
  balanceLamports : Option ℤ

/-- Model of `WalletService.isBalanceCacheValid` (lines 71-78): the cache is valid
within 30000 ms of the last successful fetch. -/
def isBalanceCacheValid (s : WalletState) (now : ℕ) : Bool :=
  match s.lastBalanceCheck with
  | none => false
  | some t => if now - t < 30000 then true else false

/-- Model of `WalletService.getWalletInfo` (lines 19-66), one call at time `now` with
the HTTP outcome given by `fetch`.  Returns the call's result, the new
service state, and whether an HTTP request was issued. -/
def getWalletInfo (s : WalletState) (forceRefresh : Bool) (now : ℕ)
    (fetch : Except String WalletApiResponse) :
    Except String WalletInfo × WalletState × Bool :=
  match s.walletInfo, forceRefresh, isBalanceCacheValid s now with
  | some w, false, true => (.ok w, s, false)
  | _, _, _ =>
    match fetch with
    | .error e => (.error ("Failed to get wallet info: " ++ e), s, true)
    | .ok resp =>
      match resp.publicKey with
      | none =>
        (.error "Failed to get wallet info: Invalid response format: missing publicKey",
          s, true)
      | some pk =>
        let w : WalletInfo :=
          { publicKey := pk
            balanceSol := resp.balanceSol.getD 0
            balanceLamports := resp.balanceLamports.getD 0
            lastUpdated := now }
        (.ok w, { walletInfo := some w, lastBalanceCheck := some now }, true)

/-! ### executeSwapService confirmation loop and fee collection
(src/jupiter.md, lines 636-760) -/

/-- Outcome of one `connection.confirmTransaction` call: it resolves with a
null `err` (confirmed), throws (network failure), or resolves with a
non-null on-chain execution error — in which case the source itself throws
`Swap transaction failed` inside the same `try`. -/
inductive ConfAttempt where
  | confirmedOk | networkError | chainError
deriving DecidableEq

/-- Observable outcome of the confirmation loop: number of
`confirmTransaction` calls made, the back-off sleeps (ms) inserted between
them, and `some a` when the loop gave up re-raising the failure of kind
`a` (or `none` when confirmed). -/
structure ConfResult where
  attempts : ℕ
  delays : List ℕ
  failure : Option ConfAttempt
deriving DecidableEq

/-- Constant `maxRetries = 5` of the confirmation loop. -/
def confirmMaxRetries : ℕ := 5

/-- The `while (retries < maxRetries)` confirmation loop (jupiter.md lines
639-656).  `i` is the 0-indexed attempt, `fuel = maxRetries - retries`; the
`fuel = 0` case is the loop guard failing, unreachable from
`confirmSwapLoop`.  After a failed attempt the code increments `retries`,
re-raises if `retries >= maxRetries`, else sleeps `1000 * 2 ^ retries`. -/
def confirmGo (o : ℕ → ConfAttempt) (i : ℕ) : ℕ → ConfResult
  | 0 => ⟨i, [], none⟩
  | fuel + 1 =>
    match o i with
    | .confirmedOk => ⟨i + 1, [], none⟩
    | a =>
      if fuel = 0 then ⟨i + 1, [], some a⟩
      else
        let rest := confirmGo o (i + 1) fuel
        ⟨rest.attempts, 1000 * 2 ^ (confirmMaxRetries - fuel) :: rest.delays, rest.failure⟩

/-- The confirmation phase of `executeSwapService`, over the oracle `o`
giving the outcome of each 0-indexed confirmation attempt. -/
def confirmSwapLoop (o : ℕ → ConfAttempt) : ConfResult :=
  confirmGo o 0 confirmMaxRetries

/-- Constant `TOKENS.SOL` (jupiter.md line 427). -/
def TOKENS_SOL : String := "So11111111111111111111111111111111111111112"

/-- Constant `FEE_PERCENTAGE = 0.001` (jupiter.md line 436): the JS literal denotes
the binary64 value nearest 1/1000. -/
def FEE_PERCENTAGE : ℚ := fl (1 / 1000)

/-- Constant `minimumFeeLamports = 100000` (jupiter.md line 681). -/
def minimumFeeLamports : ℤ := 100000

/-- The fee-amount computation of the fee-collection block (jupiter.md
lines 667-684): 0.1% of the input amount when the swap input is SOL, a
fixed `Math.floor(1000000 * FEE_PERCENTAGE)` otherwise, then raised to the
minimum fee. -/
def feeAmountLamports (inputMint : String) (inAmount : ℕ) : ℤ :=
  let base : ℤ :=
    if inputMint = TOKENS_SOL then ⌊fl ((inAmount : ℚ) * FEE_PERCENTAGE)⌋
    else ⌊fl ((1000000 : ℚ) * FEE_PERCENTAGE)⌋
  if base < minimumFeeLamports then minimumFeeLamports else base

/-- Spec-side fee amount, written from the claim's words:
`max(minimumFeeFloor, floor(swapInputAmount × feeRate))` in exact
arithmetic with `feeRate = 0.1%`, for every swap input asset. -/
def claimedFeeAmount (inAmount : ℕ) : ℤ :=
  max minimumFeeLamports ((inAmount / 1000 : ℕ) : ℤ)

inductive FeeStatus where
  | success | failed | skipped
deriving DecidableEq

/-- The `feeResult` object (status, optional fee-transaction id, fee amount
in lamports; the `lamportsToSol` display conversion and message strings are
abstracted away). -/
structure FeeOutcome where
  status : FeeStatus
  transactionId : Option String
  feeAmount : ℤ
deriving DecidableEq

/-- The `if (collectFees) { try { ... } catch { ... } }` block of
`executeSwapService` (jupiter.md lines 662-747): compute the fee, fetch the
signer's balance (`balanceResult`; a throw lands in the catch), skip when
the balance cannot cover fee plus the 10000-lamport buffer, otherwise
build/send/confirm the fee transfer (`sendResult`; a throw lands in the
catch). -/
def collectFeesStep (inputMint : String) (inAmount : ℕ)
    (balanceResult : Except String ℤ) (sendResult : Except String String) : FeeOutcome :=
  let fee := feeAmountLamports inputMint inAmount
  match balanceResult with
  | .error _ => { status := .failed, transactionId := none, feeAmount := 0 }
  | .ok userBalance =>
    if userBalance < fee + 10000 then
      { status := .skipped, transactionId := none, feeAmount := fee }
    else
      match sendResult with
      | .ok feeSignature =>
        { status := .success, transactionId := some feeSignature, feeAmount := fee }
      | .error _ => { status := .failed, transactionId := none, feeAmount := 0 }

/-- The result object returned by `executeSwapService` (jupiter.md lines
751-757). -/
structure SwapResult where
  status : String
  transactionId : String
  feeCollection : Option FeeOutcome
  newBalanceLamports : ℤ
deriving DecidableEq

/-- The tail of `executeSwapService` after the swap transaction has been
confirmed (jupiter.md lines 660-757): optional fee collection followed by
the success result carrying the swap's own signature. -/
def executeSwapServiceTail (collectFees : Bool) (signature : String)
    (inputMint : String) (inAmount : ℕ)
    (balanceResult : Except String ℤ) (sendResult : Except String String)
    (newBalanceLamports : ℤ) : SwapResult :=
  let feeResult : Option FeeOutcome :=
    if collectFees then some (collectFeesStep inputMint inAmount balanceResult sendResult)
    else none
  { status := "success"
    transactionId := signature
    feeCollection := feeResult
    newBalanceLamports := newBalanceLamports }

theorem bitsAux_spec : ∀ fuel n, n ≤ fuel → 1 ≤ n →
    2 ^ (bitsAux fuel n - 1) ≤ n ∧ n < 2 ^ bitsAux fuel n := by
  intro fuel
  induction fuel with
  | zero => intro n hn h1; omega
  | succ f ih =>
    intro n hn h1
    rw [bitsAux]
    have hne : ¬ (n = 0) := by omega
    simp only [hne, if_false]
    rcases Nat.lt_or_ge n 2 with h2 | h2
    · have : n = 1 := by omega
      subst this
      have h0 : (1 : ℕ) / 2 = 0 := by norm_num
      rw [h0]
      have : bitsAux f 0 = 0 := by
        cases f with
        | zero => rfl
        | succ f' => rw [bitsAux]; simp
      rw [this]
      norm_num
    · have hd : n / 2 ≤ f := by omega
      have hd1 : 1 ≤ n / 2 := by omega
      obtain ⟨hlo, hhi⟩ := ih (n / 2) hd hd1
      constructor
      · have hb1 : 1 ≤ bitsAux f (n / 2) := by
          by_contra h
          have : bitsAux f (n / 2) = 0 := by omega
          rw [this] at hhi
          omega
        have : bitsAux f (n / 2) + 1 - 1 = (bitsAux f (n / 2) - 1) + 1 := by omega
        rw [this, pow_succ]
        have := Nat.div_mul_le_self n 2
        calc 2 ^ (bitsAux f (n / 2) - 1) * 2 ≤ (n / 2) * 2 := by
              exact Nat.mul_le_mul_right 2 hlo
          _ ≤ n := by omega
      · rw [pow_succ]
        have : n < (n / 2) * 2 + 2 := by omega
        calc n < (n / 2) * 2 + 2 := this
          _ ≤ 2 ^ bitsAux f (n / 2) * 2 := by
              have : n / 2 + 1 ≤ 2 ^ bitsAux f (n / 2) := hhi
              omega

theorem bitlen_spec (n : ℕ) (h1 : 1 ≤ n) :
    2 ^ (bitlen n - 1) ≤ n ∧ n < 2 ^ bitlen n :=
  bitsAux_spec n n le_rfl h1

theorem qexp_spec (q : ℚ) (hq : 0 < q) :
    (2 : ℚ) ^ qexp q ≤ q ∧ q < 2 ^ (qexp q + 1) := by
  have hnum : 0 < q.num := Rat.num_pos.mpr hq
  have hden : 0 < q.den := q.pos
  have ha1 : 1 ≤ q.num.natAbs := by omega
  have hb1 : 1 ≤ q.den := hden
  obtain ⟨haL, haU⟩ := bitlen_spec q.num.natAbs ha1
  obtain ⟨hbL, hbU⟩ := bitlen_spec q.den hb1
  set A := bitlen q.num.natAbs with hA
  set B := bitlen q.den with hB
  have hA1 : 1 ≤ A := by
    by_contra h
    have : A = 0 := by omega
    rw [this] at haU; omega
  have hB1 : 1 ≤ B := by
    by_contra h
    have : B = 0 := by omega
    rw [this] at hbU; omega
  have hqeq : q = (q.num.natAbs : ℚ) / (q.den : ℚ) := by
    have h2 : ((q.num.natAbs : ℕ) : ℤ) = q.num := by omega
    have h1 : ((q.num.natAbs : ℕ) : ℚ) = ((q.num : ℤ) : ℚ) := by
      rw [← h2, Int.cast_natCast]
      norm_num [Int.natAbs_abs]
    rw [h1, Rat.num_div_den]
  have hdenQ : (0 : ℚ) < (q.den : ℚ) := by exact_mod_cast hden
  -- numerator and denominator bounds transported to ℚ
  have haLQ : (2 : ℚ) ^ (A - 1 : ℕ) ≤ (q.num.natAbs : ℚ) := by exact_mod_cast haL
  have haUQ : (q.num.natAbs : ℚ) < 2 ^ (A : ℕ) := by exact_mod_cast haU
  have hbLQ : (2 : ℚ) ^ (B - 1 : ℕ) ≤ (q.den : ℚ) := by exact_mod_cast hbL
  have hbUQ : ((q.den : ℕ) : ℚ) < 2 ^ (B : ℕ) := by exact_mod_cast hbU
  have h2ne : (2 : ℚ) ≠ 0 := by norm_num
  -- upper sandwich:  q < 2 ^ (A - B + 1)
  have hup : q < 2 ^ ((A : ℤ) - B + 1) := by
    rw [hqeq, div_lt_iff₀ hdenQ]
    calc (q.num.natAbs : ℚ) < 2 ^ (A : ℕ) := haUQ
      _ = 2 ^ ((A : ℤ)) := by rw [zpow_natCast]
      _ = 2 ^ ((A : ℤ) - B + 1) * 2 ^ ((B : ℤ) - 1) := by
          rw [← zpow_add₀ h2ne]; ring_nf
      _ ≤ 2 ^ ((A : ℤ) - B + 1) * (q.den : ℚ) := by
          apply mul_le_mul_of_nonneg_left _ (le_of_lt (zpow_pos (by norm_num) _))
          calc (2 : ℚ) ^ ((B : ℤ) - 1) = 2 ^ ((B - 1 : ℕ)) := by
                rw [← zpow_natCast]; congr 1; omega
            _ ≤ (q.den : ℚ) := hbLQ
  -- lower sandwich: 2 ^ (A - B - 1) < q
  have hlo : (2 : ℚ) ^ ((A : ℤ) - B - 1) < q := by
    rw [hqeq, lt_div_iff₀ hdenQ]
    calc (2 : ℚ) ^ ((A : ℤ) - B - 1) * (q.den : ℚ)
        < 2 ^ ((A : ℤ) - B - 1) * 2 ^ ((B : ℤ)) := by
          apply mul_lt_mul_of_pos_left _ (zpow_pos (by norm_num) _)
          calc ((q.den : ℕ) : ℚ) < 2 ^ (B : ℕ) := hbUQ
            _ = 2 ^ ((B : ℤ)) := by rw [zpow_natCast]
      _ = 2 ^ ((A : ℤ) - 1) := by rw [← zpow_add₀ h2ne]; ring_nf
      _ = 2 ^ ((A - 1 : ℕ)) := by rw [← zpow_natCast]; congr 1; omega
      _ ≤ (q.num.natAbs : ℚ) := haLQ
  rw [qexp]
  set e0 : ℤ := (A : ℤ) - B with he0
  by_cases hcase : q < 2 ^ e0
  · simp only [← hA, ← hB, ← he0, hcase, if_true]
    constructor
    · have : (2 : ℚ) ^ (e0 - 1) ≤ q := le_of_lt (by simpa [he0] using hlo)
      simpa using this
    · simpa using hcase
  · simp only [← hA, ← hB, ← he0, hcase, if_false]
    constructor
    · exact le_of_not_lt hcase
    · simpa [he0] using hup

theorem qexp_unique (q : ℚ) (hq : 0 < q) (n : ℤ)
    (h1 : (2 : ℚ) ^ n ≤ q) (h2 : q < 2 ^ (n + 1)) : qexp q = n := by
  obtain ⟨hL, hU⟩ := qexp_spec q hq
  by_contra hne
  rcases lt_or_gt_of_ne hne with h | h
  · have : (2 : ℚ) ^ (qexp q + 1) ≤ 2 ^ n := zpow_le_zpow_right₀ (by norm_num) (by omega)
    linarith
  · have : (2 : ℚ) ^ (n + 1) ≤ 2 ^ qexp q := zpow_le_zpow_right₀ (by norm_num) (by omega)
    linarith

theorem abs_rne_sub_le (x : ℚ) : |(rne x : ℚ) - x| ≤ 1 / 2 := by
  rw [rne]
  have h0 : (⌊x⌋ : ℚ) ≤ x := Int.floor_le x
  have h1 : x < ⌊x⌋ + 1 := Int.lt_floor_add_one x
  split_ifs with hlt hgt hev
  · rw [abs_le]; constructor <;> push_cast <;> linarith
  · rw [abs_le]; constructor <;> push_cast <;> linarith
  · have : x - (⌊x⌋ : ℚ) = 1 / 2 := le_antisymm (le_of_not_lt hgt) (le_of_not_lt hlt)
    rw [abs_le]; constructor <;> push_cast <;> linarith
  · have : x - (⌊x⌋ : ℚ) = 1 / 2 := le_antisymm (le_of_not_lt hgt) (le_of_not_lt hlt)
    rw [abs_le]; constructor <;> push_cast <;> linarith

theorem rne_eq_of_near (x : ℚ) (k : ℤ) (h : |x - k| < 1 / 2) : rne x = k := by
  rw [abs_lt] at h
  obtain ⟨hl, hr⟩ := h
  rw [rne]
  rcases le_or_lt (k : ℚ) x with hge | hlt
  · have hfl : ⌊x⌋ = k := by
      rw [Int.floor_eq_iff]
      constructor
      · exact_mod_cast hge
      · push_cast; linarith
    rw [hfl, if_pos]
    linarith
  · have hfl : ⌊x⌋ = k - 1 := by
      rw [Int.floor_eq_iff]
      constructor
      · push_cast; linarith
      · push_cast; linarith
    have hr' : ¬ (x - ((⌊x⌋ : ℤ) : ℚ) < 1 / 2) := by
      rw [hfl]; push_cast; intro hcon; linarith
    rw [if_neg hr', if_pos]
    · omega
    · rw [hfl]; push_cast; linarith

theorem le_rne_of_int_le (x : ℚ) (k : ℤ) (h : (k : ℚ) ≤ x) : k ≤ rne x := by
  have hfl : k ≤ ⌊x⌋ := Int.le_floor.mpr h
  rw [rne]
  split_ifs <;> omega

theorem fl_nonpos (q : ℚ) (h : q ≤ 0) : fl q = 0 := by
  rw [fl, if_pos h]

theorem fl_pos_eq (q : ℚ) (hq : 0 < q) :
    fl q = (rne (q * 2 ^ ((52 : ℤ) - qexp q)) : ℚ) * 2 ^ (qexp q - (52 : ℤ)) := by
  rw [fl, if_neg (not_le.mpr hq)]

theorem abs_fl_sub_le (q : ℚ) (hq : 0 < q) :
    |fl q - q| ≤ 2 ^ (qexp q - 53) := by
  have h2ne : (2 : ℚ) ≠ 0 := by norm_num
  set n := qexp q with hn
  set s := q * 2 ^ ((52 : ℤ) - n) with hs
  have hqs : q = s * 2 ^ (n - (52 : ℤ)) := by
    rw [hs, mul_assoc, ← zpow_add₀ h2ne]
    norm_num
  have key : fl q - q = ((rne s : ℚ) - s) * 2 ^ (n - (52 : ℤ)) := by
    rw [fl_pos_eq q hq, ← hn, ← hs]
    rw [sub_mul, ← hqs]
  rw [key, abs_mul, abs_of_pos (zpow_pos (by norm_num : (0:ℚ) < 2) _)]
  calc |(rne s : ℚ) - s| * 2 ^ (n - (52 : ℤ))
      ≤ (1 / 2) * 2 ^ (n - (52 : ℤ)) := by
        apply mul_le_mul_of_nonneg_right (abs_rne_sub_le s)
        exact le_of_lt (zpow_pos (by norm_num) _)
    _ = 2 ^ (n - 53) := by
        rw [show (n - 53 : ℤ) = (-1) + (n - 52) by ring, zpow_add₀ h2ne]
        norm_num

theorem abs_fl_sub_le_rel (q : ℚ) (hq : 0 < q) :
    |fl q - q| ≤ q / 2 ^ (53 : ℕ) := by
  have h2ne : (2 : ℚ) ≠ 0 := by norm_num
  calc |fl q - q| ≤ 2 ^ (qexp q - 53) := abs_fl_sub_le q hq
    _ = 2 ^ qexp q / 2 ^ (53 : ℕ) := by
        rw [zpow_sub₀ h2ne]; norm_num
    _ ≤ q / 2 ^ (53 : ℕ) := by
        gcongr
        exact (qexp_spec q hq).1

theorem le_fl_of_int_le (q : ℚ) (hq : 0 < q) (hn : qexp q ≤ 52)
    (I : ℤ) (hIq : (I : ℚ) ≤ q) : (I : ℚ) ≤ fl q := by
  have h2ne : (2 : ℚ) ≠ 0 := by norm_num
  set n := qexp q with hndef
  set t : ℕ := (52 - n).toNat with ht
  have htz : ((t : ℕ) : ℤ) = 52 - n := Int.toNat_of_nonneg (by omega)
  have hpow_eq : (2 : ℚ) ^ ((52 : ℤ) - n) = 2 ^ (t : ℕ) := by
    rw [← zpow_natCast, htz]
  set s := q * 2 ^ ((52 : ℤ) - n) with hs
  have hks : ((I * 2 ^ t : ℤ) : ℚ) ≤ s := by
    rw [hs, hpow_eq]
    push_cast
    exact mul_le_mul_of_nonneg_right hIq (by positivity)
  have hr : (I * 2 ^ t : ℤ) ≤ rne s := le_rne_of_int_le s _ hks
  have hrQ : ((I * 2 ^ t : ℤ) : ℚ) ≤ (rne s : ℚ) := by exact_mod_cast hr
  have hfl : fl q = (rne s : ℚ) * 2 ^ (n - (52 : ℤ)) := fl_pos_eq q hq
  rw [hfl]
  calc (I : ℚ) = ((I * 2 ^ t : ℤ) : ℚ) * 2 ^ (n - (52 : ℤ)) := by
        push_cast
        rw [mul_assoc, ← zpow_natCast (2 : ℚ) t, ← zpow_add₀ h2ne]
        rw [show ((t : ℕ) : ℤ) + (n - 52) = 0 by omega]
        norm_num
    _ ≤ (rne s : ℚ) * 2 ^ (n - (52 : ℤ)) :=
        mul_le_mul_of_nonneg_right hrQ (le_of_lt (zpow_pos (by norm_num) _))

theorem fl_eq_int_of_near (q : ℚ) (hq : 0 < q) (hn : qexp q ≤ 52)
    (I : ℤ) (h : |q - I| < 2 ^ (qexp q - 53)) : fl q = I := by
  have h2ne : (2 : ℚ) ≠ 0 := by norm_num
  set n := qexp q with hndef
  set t : ℕ := (52 - n).toNat with ht
  have htz : ((t : ℕ) : ℤ) = 52 - n := Int.toNat_of_nonneg (by omega)
  have hpow_eq : (2 : ℚ) ^ ((52 : ℤ) - n) = 2 ^ (t : ℕ) := by
    rw [← zpow_natCast, htz]
  set s := q * 2 ^ ((52 : ℤ) - n) with hs
  have hnear : |s - ((I * 2 ^ t : ℤ) : ℚ)| < 1 / 2 := by
    have hfac : s - ((I * 2 ^ t : ℤ) : ℚ) = (q - I) * 2 ^ ((52 : ℤ) - n) := by
      rw [hs, hpow_eq]
      push_cast
      ring
    rw [hfac, abs_mul, abs_of_pos (zpow_pos (by norm_num : (0:ℚ) < 2) _)]
    calc |q - (I : ℚ)| * 2 ^ ((52 : ℤ) - n)
        < 2 ^ (n - 53) * 2 ^ ((52 : ℤ) - n) := by
          exact mul_lt_mul_of_pos_right h (zpow_pos (by norm_num) _)
      _ = 1 / 2 := by
          rw [← zpow_add₀ h2ne]
          rw [show (n - 53) + ((52 : ℤ) - n) = -1 by ring]
          norm_num
  have hr : rne s = I * 2 ^ t := rne_eq_of_near s _ hnear
  rw [fl_pos_eq q hq, ← hndef, ← hs, hr]
  push_cast
  rw [mul_assoc, ← zpow_natCast (2 : ℚ) t, ← zpow_add₀ h2ne]
  rw [show ((t : ℕ) : ℤ) + (n - 52) = 0 by omega]
  norm_num

theorem fl_eval (q : ℚ) (hq : 0 < q) (n k : ℤ)
    (h1 : (2 : ℚ) ^ n ≤ q) (h2 : q < 2 ^ (n + 1))
    (hk : |q * 2 ^ ((52 : ℤ) - n) - k| < 1 / 2) :
    fl q = (k : ℚ) * 2 ^ (n - (52 : ℤ)) := by
  have hqe : qexp q = n := qexp_unique q hq n h1 h2
  rw [fl_pos_eq q hq, hqe, rne_eq_of_near _ k hk]

/-- Main exactness lemma: multiplying an integer `N ≤ B` by a binary64
value `mh` that approximates `d / 10000`, rounding the product to binary64
and taking the floor, agrees with exact integer arithmetic `(N * d) / 10000`,
provided the error budget `h2` leaves the grid gap `g / 10000` intact
(`g` a common divisor of `d` and `10000`). -/
theorem floor_fl_mul (d g B : ℕ) (mh : ℚ)
    (hg : 0 < g) (hgd : g ∣ d) (hg4 : g ∣ 10000) (hd4 : d ≤ 10000)
    (hmh0 : 0 < mh) (hmh1 : mh ≤ 1)
    (hB52 : (B : ℚ) ≤ 2 ^ (52 : ℕ) - 1)
    (h1 : (d : ℚ) / 10000 - mh < mh / 2 ^ (54 : ℕ))
    (h2 : (B : ℚ) * |mh - (d : ℚ) / 10000| + ((B : ℚ) + 1) / 2 ^ (53 : ℕ) < (g : ℚ) / 10000)
    (N : ℕ) (hN : N ≤ B) :
    ⌊fl ((N : ℚ) * mh)⌋ = ((N * d) / 10000 : ℕ) := by
  rcases Nat.eq_zero_or_pos N with h0 | hNpos
  · subst h0
    have hz : ((0 : ℕ) : ℚ) * mh = 0 := by norm_num
    rw [hz, fl_nonpos 0 le_rfl]
    norm_num
  set p := (N : ℚ) * mh with hp
  have hNQpos : (0 : ℚ) < (N : ℚ) := by exact_mod_cast hNpos
  have hppos : 0 < p := mul_pos hNQpos hmh0
  set I : ℕ := (N * d) / 10000 with hIdef
  set rem : ℕ := (N * d) % 10000 with hremdef
  have hmod := Nat.div_add_mod (N * d) 10000
  have hcast : ((N * d : ℕ) : ℚ) = 10000 * (I : ℚ) + (rem : ℚ) := by
    rw [hIdef, hremdef]
    exact_mod_cast hmod.symm
  have hkey : (N : ℚ) * ((d : ℚ) / 10000) = (I : ℚ) + (rem : ℚ) / 10000 := by
    have hnd : (N : ℚ) * ((d : ℚ) / 10000) = ((N * d : ℕ) : ℚ) / 10000 := by
      push_cast; ring
    rw [hnd, hcast]; ring
  have hrem_lt : rem < 10000 := Nat.mod_lt _ (by norm_num)
  have hgrem : g ∣ rem := (Nat.dvd_mod_iff hg4).mpr (Dvd.dvd.mul_left hgd N)
  have hg10 : g ≤ 10000 := Nat.le_of_dvd (by norm_num) hg4
  have hrem_ub : rem ≤ 10000 - g := by
    rcases Nat.eq_zero_or_pos rem with hz | hpos
    · omega
    · have hsub : g ∣ 10000 - rem := Nat.dvd_sub' hg4 hgrem
      have hposd : 0 < 10000 - rem := by omega
      have := Nat.le_of_dvd hposd hsub
      omega
  have hI_le_N : I ≤ N := by
    rw [hIdef]
    calc (N * d) / 10000 ≤ (N * 10000) / 10000 :=
          Nat.div_le_div_right (Nat.mul_le_mul_left N hd4)
      _ = N := Nat.mul_div_cancel N (by norm_num)
  have hN_Q : (N : ℚ) ≤ (B : ℚ) := by exact_mod_cast hN
  have hp_le_B : p ≤ (B : ℚ) := by
    calc p ≤ (N : ℚ) * 1 := mul_le_mul_of_nonneg_left hmh1 (le_of_lt hNQpos)
      _ = (N : ℚ) := mul_one _
      _ ≤ (B : ℚ) := hN_Q
  set ε := |mh - (d : ℚ) / 10000| with hεdef
  have hε0 : 0 ≤ ε := abs_nonneg _
  have hup' : mh - (d : ℚ) / 10000 ≤ ε := le_abs_self _
  have hdn' : (d : ℚ) / 10000 - mh ≤ ε := by
    rw [hεdef, abs_sub_comm]; exact le_abs_self _
  have hNε : (N : ℚ) * ε ≤ (B : ℚ) * ε := mul_le_mul_of_nonneg_right hN_Q hε0
  have hp_ub : p ≤ (I : ℚ) + (rem : ℚ) / 10000 + (B : ℚ) * ε := by
    have hsplit : p = (N : ℚ) * ((d : ℚ) / 10000) + (N : ℚ) * (mh - (d : ℚ) / 10000) := by
      rw [hp]; ring
    have hterm : (N : ℚ) * (mh - (d : ℚ) / 10000) ≤ (N : ℚ) * ε :=
      mul_le_mul_of_nonneg_left hup' (le_of_lt hNQpos)
    rw [hsplit, hkey]
    linarith
  have hp_lb : (I : ℚ) + (rem : ℚ) / 10000 - (B : ℚ) * ε ≤ p := by
    have hsplit : p = (N : ℚ) * ((d : ℚ) / 10000) - (N : ℚ) * ((d : ℚ) / 10000 - mh) := by
      rw [hp]; ring
    have hterm : (N : ℚ) * ((d : ℚ) / 10000 - mh) ≤ (N : ℚ) * ε :=
      mul_le_mul_of_nonneg_left hdn' (le_of_lt hNQpos)
    rw [hsplit, hkey]
    linarith
  have hflerr : |fl p - p| ≤ ((B : ℚ) + 1) / 2 ^ (53 : ℕ) := by
    calc |fl p - p| ≤ p / 2 ^ (53 : ℕ) := abs_fl_sub_le_rel p hppos
      _ ≤ ((B : ℚ) + 1) / 2 ^ (53 : ℕ) := by gcongr; linarith
  obtain ⟨hflerr1, hflerr2⟩ := abs_le.mp hflerr
  have hremQ_ub : (rem : ℚ) ≤ 10000 - (g : ℚ) := by
    have : (rem : ℚ) ≤ ((10000 - g : ℕ) : ℚ) := by exact_mod_cast hrem_ub
    calc (rem : ℚ) ≤ ((10000 - g : ℕ) : ℚ) := this
      _ = 10000 - (g : ℚ) := by
          have : (g : ℕ) ≤ 10000 := hg10
          push_cast [this]
          ring
  have hn52 : qexp p ≤ 52 := by
    by_contra hcon
    push_neg at hcon
    have hlow := (qexp_spec p hppos).1
    have hbig : (2 : ℚ) ^ (53 : ℤ) ≤ 2 ^ qexp p :=
      zpow_le_zpow_right₀ (by norm_num) (by omega)
    have h53 : ((2 : ℚ) ^ (53 : ℕ)) ≤ p := by
      rw [← zpow_natCast]
      exact le_trans hbig hlow
    have : ((2 : ℚ) ^ (53 : ℕ)) ≤ 2 ^ (52 : ℕ) - 1 := le_trans h53 (le_trans hp_le_B hB52)
    norm_num at this
  have hupper : fl p < (I : ℚ) + 1 := by
    have hgap : (rem : ℚ) / 10000 + (g : ℚ) / 10000 ≤ 1 := by linarith
    linarith
  have hlower : (I : ℚ) ≤ fl p := by
    rcases Nat.eq_zero_or_pos rem with hr0 | hrpos
    · have hr0Q : (rem : ℚ) = 0 := by rw [hr0]; norm_num
      have hNm : (N : ℚ) * ((d : ℚ) / 10000) = (I : ℚ) := by
        rw [hkey, hr0Q]; ring
      rcases le_or_lt (I : ℚ) p with hge | hlt
      · have hresult := le_fl_of_int_le p hppos hn52 ((I : ℕ) : ℤ) (by exact_mod_cast hge)
        exact_mod_cast hresult
      · have hdiff : (I : ℚ) - p = (N : ℚ) * ((d : ℚ) / 10000 - mh) := by
          rw [← hNm, hp]; ring
        have hdpos : 0 < (N : ℚ) * ((d : ℚ) / 10000 - mh) := by
          rw [← hdiff]; linarith
        have hstep : (I : ℚ) - p < p / 2 ^ (54 : ℕ) := by
          rw [hdiff]
          calc (N : ℚ) * ((d : ℚ) / 10000 - mh)
              < (N : ℚ) * (mh / 2 ^ (54 : ℕ)) := mul_lt_mul_of_pos_left h1 hNQpos
            _ = p / 2 ^ (54 : ℕ) := by rw [hp]; ring
        have hpow : p / 2 ^ (54 : ℕ) < 2 ^ (qexp p - 53) := by
          have hplt : p < 2 ^ (qexp p + 1) := (qexp_spec p hppos).2
          have heq : (2 : ℚ) ^ (qexp p - 53) = 2 ^ (qexp p + 1) / 2 ^ (54 : ℕ) := by
            rw [← zpow_natCast (2 : ℚ) 54, ← zpow_sub₀ (by norm_num : (2:ℚ) ≠ 0)]
            congr 1
            omega
          rw [heq]
          gcongr
        have hnear : |p - ((I : ℕ) : ℤ)| < 2 ^ (qexp p - 53) := by
          rw [abs_of_neg (by push_cast; linarith : p - (((I : ℕ) : ℤ) : ℚ) < 0)]
          push_cast
          linarith
        have hflI := fl_eq_int_of_near p hppos hn52 ((I : ℕ) : ℤ) hnear
        rw [hflI]
        push_cast
        exact le_refl _
    · have hremQ_lb : (g : ℚ) ≤ (rem : ℚ) := by
        exact_mod_cast Nat.le_of_dvd hrpos hgrem
      have : (g : ℚ) / 10000 ≤ (rem : ℚ) / 10000 := by gcongr <;> norm_num
      linarith
  have hfloor : ⌊fl p⌋ = ((I : ℕ) : ℤ) := by
    rw [Int.floor_eq_iff]
    constructor
    · exact_mod_cast hlower
    · push_cast
      exact hupper
  exact_mod_cast hfloor

/-- Convenience form of `fl_eval` for arguments in `[2^-(m+1), 2^-m)`. -/
theorem fl_eval_div (q : ℚ) (hq : 0 < q) (m : ℕ) (k : ℤ)
    (h1 : (1 : ℚ) / 2 ^ (m + 1) ≤ q) (h2 : q < 1 / 2 ^ m)
    (hk : |q * 2 ^ (53 + m : ℕ) - k| < 1 / 2) :
    fl q = (k : ℚ) / 2 ^ (53 + m : ℕ) := by
  have hn1 : (2 : ℚ) ^ (-(m + 1 : ℕ) : ℤ) = 1 / 2 ^ (m + 1 : ℕ) := by
    rw [zpow_neg, zpow_natCast, one_div]
  have hn2 : (2 : ℚ) ^ ((-(m + 1 : ℕ) : ℤ) + 1) = 1 / 2 ^ (m : ℕ) := by
    rw [show (-(m + 1 : ℕ) : ℤ) + 1 = -(m : ℕ) by push_cast; ring, zpow_neg, zpow_natCast,
      one_div]
  have hn3 : (52 : ℤ) - (-(m + 1 : ℕ) : ℤ) = ((53 + m : ℕ) : ℤ) := by push_cast; ring
  have heval := fl_eval q hq (-(m + 1 : ℕ) : ℤ) k (by rw [hn1]; exact h1)
    (by rw [hn2]; exact h2) (by rw [hn3, zpow_natCast]; exact hk)
  rw [heval, show (-(m + 1 : ℕ) : ℤ) - 52 = -((53 + m : ℕ) : ℤ) by push_cast; ring,
    zpow_neg, zpow_natCast, div_eq_mul_inv]

/-- The binary64 value of `(10000 - 50) / 10000`. -/
theorem fl_tier50 : fl (((10000 : ℚ) - 50) / 10000) = 8962163258467287 / 2 ^ (53 : ℕ) := by
  have h := fl_eval_div (((10000 : ℚ) - 50) / 10000) (by norm_num) 0 8962163258467287
    (by norm_num) (by norm_num) (by rw [abs_lt]; constructor <;> norm_num)
  simpa using h

/-- The binary64 value of `(10000 - 75) / 10000`. -/
theorem fl_tier75 : fl (((10000 : ℚ) - 75) / 10000) = 8939645260330435 / 2 ^ (53 : ℕ) := by
  have h := fl_eval_div (((10000 : ℚ) - 75) / 10000) (by norm_num) 0 8939645260330435
    (by norm_num) (by norm_num) (by rw [abs_lt]; constructor <;> norm_num)
  simpa using h

/-- The binary64 value of `(10000 - 100) / 10000`. -/
theorem fl_tier100 : fl (((10000 : ℚ) - 100) / 10000) = 8917127262193582 / 2 ^ (53 : ℕ) := by
  have h := fl_eval_div (((10000 : ℚ) - 100) / 10000) (by norm_num) 0 8917127262193582
    (by norm_num) (by norm_num) (by rw [abs_lt]; constructor <;> norm_num)
  simpa using h

/-- The binary64 value of the literal `0.001`. -/
theorem fl_feePct : FEE_PERCENTAGE = 4611686018427388 / 2 ^ (62 : ℕ) := by
  have h := fl_eval_div ((1 : ℚ) / 1000) (by norm_num) 9 4611686018427388
    (by norm_num) (by norm_num) (by rw [abs_lt]; constructor <;> norm_num)
  rw [FEE_PERCENTAGE]
  simpa using h

/-- Exactness of the minimum-output computation on the tier-50 multiplier
for amounts up to 10^13. -/
theorem minOut_exact_50 (N : ℕ) (hN : N ≤ 10 ^ 13) :
    ⌊fl ((N : ℚ) * (8962163258467287 / 2 ^ (53 : ℕ)))⌋ = ((N * 9950) / 10000 : ℕ) := by
  apply floor_fl_mul 9950 50 (10 ^ 13) _ (by norm_num) (by norm_num) (by norm_num)
    (by norm_num) (by norm_num) (by norm_num) (by norm_num) (by norm_num)
  · rw [show |(8962163258467287 / 2 ^ (53 : ℕ) : ℚ) - ((9950 : ℕ) : ℚ) / 10000|
        = ((9950 : ℕ) : ℚ) / 10000 - 8962163258467287 / 2 ^ (53 : ℕ) by
      rw [abs_of_neg] <;> norm_num]
    norm_num
  · exact hN

theorem minOut_exact_75 (N : ℕ) (hN : N ≤ 10 ^ 13) :
    ⌊fl ((N : ℚ) * (8939645260330435 / 2 ^ (53 : ℕ)))⌋ = ((N * 9925) / 10000 : ℕ) := by
  apply floor_fl_mul 9925 25 (10 ^ 13) _ (by norm_num) (by norm_num) (by norm_num)
    (by norm_num) (by norm_num) (by norm_num) (by norm_num) (by norm_num)
  · rw [show |(8939645260330435 / 2 ^ (53 : ℕ) : ℚ) - ((9925 : ℕ) : ℚ) / 10000|
        = 8939645260330435 / 2 ^ (53 : ℕ) - ((9925 : ℕ) : ℚ) / 10000 by
      rw [abs_of_pos] <;> norm_num]
    norm_num
  · exact hN

theorem minOut_exact_100 (N : ℕ) (hN : N ≤ 10 ^ 13) :
    ⌊fl ((N : ℚ) * (8917127262193582 / 2 ^ (53 : ℕ)))⌋ = ((N * 9900) / 10000 : ℕ) := by
  apply floor_fl_mul 9900 100 (10 ^ 13) _ (by norm_num) (by norm_num) (by norm_num)
    (by norm_num) (by norm_num) (by norm_num) (by norm_num) (by norm_num)
  · rw [show |(8917127262193582 / 2 ^ (53 : ℕ) : ℚ) - ((9900 : ℕ) : ℚ) / 10000|
        = ((9900 : ℕ) : ℚ) / 10000 - 8917127262193582 / 2 ^ (53 : ℕ) by
      rw [abs_of_neg] <;> norm_num]
    norm_num
  · exact hN

/-- Bridge: `calculateMinimumOutput` agrees with the exact formula on the
configured tiers for output amounts up to 10^13. -/
theorem calculateMinimumOutput_eq_spec (N : ℕ) (s : ℕ)
    (hs : s = MIN_SLIPPAGE_BPS ∨ s = DEFAULT_SLIPPAGE_BPS ∨ s = MAX_SLIPPAGE_BPS)
    (hN : N ≤ 10 ^ 13) :
    calculateMinimumOutput (N : ℤ) s = ((specMinimumOutput N s : ℕ) : ℤ) := by
  rcases hs with h | h | h <;> subst h
  · unfold calculateMinimumOutput MIN_SLIPPAGE_BPS
    rw [show ((10000 : ℚ) - ((50 : ℕ) : ℚ)) / 10000 = ((10000 : ℚ) - 50) / 10000 by norm_num]
    rw [fl_tier50, show (((N : ℤ) : ℤ) : ℚ) = (N : ℚ) by push_cast; ring]
    rw [minOut_exact_50 N hN]
    unfold specMinimumOutput
    norm_num
  · unfold calculateMinimumOutput DEFAULT_SLIPPAGE_BPS
    rw [show ((10000 : ℚ) - ((75 : ℕ) : ℚ)) / 10000 = ((10000 : ℚ) - 75) / 10000 by norm_num]
    rw [fl_tier75, show (((N : ℤ) : ℤ) : ℚ) = (N : ℚ) by push_cast; ring]
    rw [minOut_exact_75 N hN]
    unfold specMinimumOutput
    norm_num
  · unfold calculateMinimumOutput MAX_SLIPPAGE_BPS
    rw [show ((10000 : ℚ) - ((100 : ℕ) : ℚ)) / 10000 = ((10000 : ℚ) - 100) / 10000 by norm_num]
    rw [fl_tier100, show (((N : ℤ) : ℤ) : ℚ) = (N : ℚ) by push_cast; ring]
    rw [minOut_exact_100 N hN]
    unfold specMinimumOutput
    norm_num

/-- Evaluation of the minimum-output computation at the counterexample
input: the binary64 product rounds up across the next integer. -/
theorem calcMinOut_big :
    calculateMinimumOutput 5249289124956665 50 = 5223042679331882 := by
  unfold calculateMinimumOutput
  rw [show ((10000 : ℚ) - ((50 : ℕ) : ℚ)) / 10000 = ((10000 : ℚ) - 50) / 10000 by norm_num]
  rw [fl_tier50, show (((5249289124956665 : ℤ)) : ℚ) = (5249289124956665 : ℚ) by norm_num]
  have heval := fl_eval ((5249289124956665 : ℚ) * (8962163258467287 / 2 ^ (53 : ℕ)))
    (by norm_num) 52 5223042679331882 (by norm_num) (by norm_num)
    (by
      rw [show (52 : ℤ) - 52 = 0 by norm_num, zpow_zero, mul_one, abs_lt]
      constructor <;> norm_num)
  rw [heval, show (52 : ℤ) - 52 = 0 by norm_num, zpow_zero, mul_one]
  exact Int.floor_intCast _

/-- Claim C4 (amended). For every quote enhanced by the quote path with one of
the configured slippage tiers (50/75/100 bps) and an output amount of at
most 10^13 base units, the derived field `minimumOutput` equals
`floor(outAmount * (10000 - slippageBps) / 10000)` computed in exact
arithmetic.  (As literally stated — for arbitrary output amounts — the
claim fails on the code's binary64 arithmetic; see the counterexample.) -/
theorem claim_C4_amended (q : RawQuote) (s : ℕ) (out : ℕ)
    (hs : s = MIN_SLIPPAGE_BPS ∨ s = DEFAULT_SLIPPAGE_BPS ∨ s = MAX_SLIPPAGE_BPS)
    (hout : q.outAmount = some (out : ℤ)) (hbound : out ≤ 10 ^ 13) :
    (enhanceQuote q s).minimumOutput = ((specMinimumOutput out s : ℕ) : ℤ) := by
  have hmo : (enhanceQuote q s).minimumOutput = calculateMinimumOutput (out : ℤ) s := by
    simp [enhanceQuote, hout]
  rw [hmo, calculateMinimumOutput_eq_spec out s hs hbound]

/-- Claim C4 (counterexample). A structurally valid quote with output amount
5249289124956665 base units at the 50 bps tier passes through the quote
path, and its `minimumOutput` is 5223042679331882, whereas the claimed
exact formula gives 5223042679331881. -/
theorem claim_C4_counterexample :
    getQuote (fun _ =>
        .ok (some ⟨some "In", some "Out", some 1000000, some 5249289124956665,
          some 0, some 1⟩)) 50
      = .ok (enhanceQuote
          ⟨some "In", some "Out", some 1000000, some 5249289124956665, some 0, some 1⟩ 50)
    ∧ (enhanceQuote
        ⟨some "In", some "Out", some 1000000, some 5249289124956665, some 0, some 1⟩
        50).minimumOutput = 5223042679331882
    ∧ specMinimumOutput 5249289124956665 50 = 5223042679331881
    ∧ (5223042679331882 : ℤ) ≠ 5223042679331881 := by
  refine ⟨rfl, ?_, by norm_num [specMinimumOutput], by norm_num⟩
  have hmo : (enhanceQuote
      ⟨some "In", some "Out", some 1000000, some 5249289124956665, some 0, some 1⟩
      50).minimumOutput = calculateMinimumOutput 5249289124956665 50 := by
    simp [enhanceQuote]
  rw [hmo, calcMinOut_big]

/-- Claim C4 (witness). The amended theorem applied at Scenario A's magnitude:
output amount 1000000 at the 50 bps tier gives minimum output 995000. -/
theorem claim_C4_witness :
    (enhanceQuote ⟨some "In", some "Out", some 1000000, some 1000000, some 0, some 1⟩
      MIN_SLIPPAGE_BPS).minimumOutput = 995000 := by
  have h := claim_C4_amended
    ⟨some "In", some "Out", some 1000000, some 1000000, some 0, some 1⟩
    MIN_SLIPPAGE_BPS 1000000 (Or.inl rfl) (by norm_num) (by norm_num)
  rw [h]
  norm_num [specMinimumOutput, MIN_SLIPPAGE_BPS]

/-- The binary64 value of `1000000 * FEE_PERCENTAGE` is exactly 1000. -/
theorem fl_fee_nonSol : fl ((1000000 : ℚ) * FEE_PERCENTAGE) = 1000 := by
  rw [fl_feePct]
  have heval := fl_eval ((1000000 : ℚ) * (4611686018427388 / 2 ^ (62 : ℕ)))
    (by norm_num) 9 8796093022208000 (by norm_num) (by norm_num)
    (by rw [abs_lt]; constructor <;> norm_num)
  rw [heval, show (9 : ℤ) - 52 = -((43 : ℕ) : ℤ) by norm_num, zpow_neg, zpow_natCast]
  norm_num

/-- Exactness of the SOL-branch fee product for inputs up to 8·10^12. -/
theorem fee_exact_sol (N : ℕ) (hN : N ≤ 8 * 10 ^ 12) :
    ⌊fl ((N : ℚ) * (4611686018427388 / 2 ^ (62 : ℕ)))⌋ = ((N * 10) / 10000 : ℕ) := by
  apply floor_fl_mul 10 10 (8 * 10 ^ 12) _ (by norm_num) (by norm_num) (by norm_num)
    (by norm_num) (by norm_num) (by norm_num) (by norm_num) (by norm_num)
  · rw [show |(4611686018427388 / 2 ^ (62 : ℕ) : ℚ) - ((10 : ℕ) : ℚ) / 10000|
        = 4611686018427388 / 2 ^ (62 : ℕ) - ((10 : ℕ) : ℚ) / 10000 by
      rw [abs_of_pos] <;> norm_num]
    norm_num
  · exact hN

/-- For any input asset other than SOL the collected fee is the constant
minimum fee: `Math.floor(1000000 * FEE_PERCENTAGE) = 1000` is below the
100000-lamport floor. -/
theorem feeAmount_nonSol (mint : String) (hmint : mint ≠ TOKENS_SOL) (N : ℕ) :
    feeAmountLamports mint N = minimumFeeLamports := by
  unfold feeAmountLamports
  rw [if_neg hmint, fl_fee_nonSol,
    show (1000 : ℚ) = ((1000 : ℤ) : ℚ) by norm_num, Int.floor_intCast]
  norm_num [minimumFeeLamports]

/-- For a SOL input of at most 8·10^12 lamports the collected fee is
`max(minimumFeeLamports, floor(inAmount / 1000))` in exact arithmetic. -/
theorem feeAmount_sol (N : ℕ) (hN : N ≤ 8 * 10 ^ 12) :
    feeAmountLamports TOKENS_SOL N = max minimumFeeLamports ((N / 1000 : ℕ) : ℤ) := by
  unfold feeAmountLamports
  rw [if_pos rfl, fl_feePct, fee_exact_sol N hN,
    show (N * 10) / 10000 = N / 1000 by omega]
  unfold minimumFeeLamports
  rcases le_or_lt (100000 : ℤ) ((N / 1000 : ℕ) : ℤ) with h | h
  · rw [if_neg (not_lt.mpr h), max_eq_right h]
  · rw [if_pos h, max_eq_left (le_of_lt h)]

/-- Claim C7 (amended). The fee charged equals
`max(minimumFeeFloor, floor(swapInputAmount × feeRate))` only when the swap
input asset is SOL (shown here in exact arithmetic for inputs up to
8·10^12 lamports); for every other input asset the fee is the constant
`minimumFeeFloor` of 100000 lamports, independent of the swap input amount. -/
theorem claim_C7_amended :
    (∀ (mint : String), mint ≠ TOKENS_SOL →
      ∀ (N : ℕ), feeAmountLamports mint N = minimumFeeLamports)
    ∧ (∀ N : ℕ, N ≤ 8 * 10 ^ 12 →
      feeAmountLamports TOKENS_SOL N = max minimumFeeLamports ((N / 1000 : ℕ) : ℤ)) :=
  ⟨feeAmount_nonSol, feeAmount_sol⟩

/-- Claim C7 (counterexample). For a non-SOL input asset (here USDC) with
swap input amount 10^9 base units, the code charges 100000 lamports while
the claimed formula `max(minimumFeeFloor, floor(inputAmount × 0.1%))`
yields 1000000. -/
theorem claim_C7_counterexample :
    feeAmountLamports "EPjFWdd5AufqSSqeM2qN1xzybapC8G4wEGGkZwyTDt1v" 1000000000 = 100000
    ∧ claimedFeeAmount 1000000000 = 1000000
    ∧ (100000 : ℤ) ≠ 1000000 := by
  refine ⟨?_, by norm_num [claimedFeeAmount, minimumFeeLamports], by norm_num⟩
  rw [feeAmount_nonSol _ (by decide) 1000000000]
  norm_num [minimumFeeLamports]

/-- Claim C7 (witness). The amended theorem applied at concrete inputs: a
USDC-input swap of 10^9 base units pays the 100000-lamport floor, and a
SOL-input swap of 2·10^9 lamports pays 2·10^6 lamports (0.1%). -/
theorem claim_C7_witness :
    feeAmountLamports "EPjFWdd5AufqSSqeM2qN1xzybapC8G4wEGGkZwyTDt1v" 1000000000 = 100000
    ∧ feeAmountLamports TOKENS_SOL (2 * 10 ^ 9) = 2 * 10 ^ 6 := by
  constructor
  · rw [claim_C7_amended.1 _ (by decide) 1000000000]
    norm_num [minimumFeeLamports]
  · rw [claim_C7_amended.2 (2 * 10 ^ 9) (by norm_num)]
    norm_num [minimumFeeLamports]

/-- Characterization of the confirmation loop body: attempts progress and
stay within the budget, the sleeps are exactly `1000 * 2^n` for the failed
attempt numbers `n`, a raised failure means the budget was exhausted and the
raised error is the last attempt's, and success means the last attempt
confirmed. -/
theorem confirmGo_spec (o : ℕ → ConfAttempt) :
    ∀ fuel i, i + fuel = confirmMaxRetries → 0 < fuel →
      (i < (confirmGo o i fuel).attempts
        ∧ (confirmGo o i fuel).attempts ≤ confirmMaxRetries)
      ∧ (confirmGo o i fuel).delays
          = (List.range' (i + 1) ((confirmGo o i fuel).attempts - (i + 1))).map
              (fun n => 1000 * 2 ^ n)
      ∧ ((confirmGo o i fuel).failure.isSome →
          (confirmGo o i fuel).attempts = confirmMaxRetries
            ∧ (confirmGo o i fuel).failure = some (o (confirmMaxRetries - 1)))
      ∧ ((confirmGo o i fuel).failure = none →
          o ((confirmGo o i fuel).attempts - 1) = .confirmedOk) := by
  intro fuel
  induction fuel with
  | zero => intro i hi h0; omega
  | succ f ih =>
    intro i hi _
    rcases ho : o i with _ | _ | _
    · rw [confirmGo]
      simp only [ho]
      refine ⟨⟨by omega, by omega⟩, by simp, by simp, ?_⟩
      intro _
      simpa using ho
    · rw [confirmGo]
      simp only [ho]
      by_cases hf : f = 0
      · subst hf
        rw [if_pos rfl]
        refine ⟨⟨?_, ?_⟩, by simp, ?_, by simp⟩
        · show i < i + 1
          omega
        · show i + 1 ≤ confirmMaxRetries
          simp only [confirmMaxRetries] at hi ⊢
          omega
        intro _
        constructor
        · simp only [confirmMaxRetries] at hi ⊢; omega
        · have : i = confirmMaxRetries - 1 := by
            simp only [confirmMaxRetries] at hi ⊢; omega
          simp [← this, ho]
      · rw [if_neg hf]
        have hrec := ih (i + 1) (by omega) (by omega)
        obtain ⟨⟨hr1, hr2⟩, hr3, hr4, hr5⟩ := hrec
        refine ⟨⟨by simpa using by omega, by simpa using hr2⟩, ?_, ?_, ?_⟩
        · simp only []
          rw [hr3]
          have hlen : (confirmGo o (i + 1) f).attempts - (i + 1)
              = ((confirmGo o (i + 1) f).attempts - (i + 2)) + 1 := by omega
          rw [hlen, List.range'_succ, List.map_cons]
          have hexp : confirmMaxRetries - f = i + 1 := by
            simp only [confirmMaxRetries] at hi ⊢; omega
          rw [hexp]
        · intro hsome
          simp only [] at hsome ⊢
          obtain ⟨ha, hb⟩ := hr4 hsome
          exact ⟨ha, hb⟩
        · intro hnone
          simp only [] at hnone ⊢
          exact hr5 hnone
    · rw [confirmGo]
      simp only [ho]
      by_cases hf : f = 0
      · subst hf
        rw [if_pos rfl]
        refine ⟨⟨?_, ?_⟩, by simp, ?_, by simp⟩
        · show i < i + 1
          omega
        · show i + 1 ≤ confirmMaxRetries
          simp only [confirmMaxRetries] at hi ⊢
          omega
        intro _
        constructor
        · simp only [confirmMaxRetries] at hi ⊢; omega
        · have : i = confirmMaxRetries - 1 := by
            simp only [confirmMaxRetries] at hi ⊢; omega
          simp [← this, ho]
      · rw [if_neg hf]
        have hrec := ih (i + 1) (by omega) (by omega)
        obtain ⟨⟨hr1, hr2⟩, hr3, hr4, hr5⟩ := hrec
        refine ⟨⟨by simpa using by omega, by simpa using hr2⟩, ?_, ?_, ?_⟩
        · simp only []
          rw [hr3]
          have hlen : (confirmGo o (i + 1) f).attempts - (i + 1)
              = ((confirmGo o (i + 1) f).attempts - (i + 2)) + 1 := by omega
          rw [hlen, List.range'_succ, List.map_cons]
          have hexp : confirmMaxRetries - f = i + 1 := by
            simp only [confirmMaxRetries] at hi ⊢; omega
          rw [hexp]
        · intro hsome
          simp only [] at hsome ⊢
          obtain ⟨ha, hb⟩ := hr4 hsome
          exact ⟨ha, hb⟩
        · intro hnone
          simp only [] at hnone ⊢
          exact hr5 hnone

/-- Claim C5. The confirmation loop makes at most 5 confirmation attempts;
after each failed attempt `n` that is not the last it sleeps
`1000 * 2^n` ms (so the observed sleeps are `1000·2^1, …` up to the number
of failed non-final attempts); and when it gives up, exactly 5 attempts
have been made and the 5th attempt's failure is re-raised to the caller. -/
theorem claim_C5 (o : ℕ → ConfAttempt) :
    (confirmSwapLoop o).attempts ≤ 5
    ∧ (confirmSwapLoop o).delays
        = (List.range' 1 ((confirmSwapLoop o).attempts - 1)).map (fun n => 1000 * 2 ^ n)
    ∧ ((confirmSwapLoop o).failure.isSome →
        (confirmSwapLoop o).attempts = 5 ∧ (confirmSwapLoop o).failure = some (o 4)) := by
  obtain ⟨⟨_, h2⟩, h3, h4, _⟩ := confirmGo_spec o confirmMaxRetries 0 (by omega)
    (by norm_num [confirmMaxRetries])
  unfold confirmSwapLoop
  exact ⟨h2, by simpa using h3, h4⟩

/-- Claim C5 (witness). With every confirmation attempt failing, the loop
performs exactly 5 attempts, sleeps 2000/4000/8000/16000 ms between them,
and raises the last failure. -/
theorem claim_C5_witness :
    (confirmSwapLoop (fun _ => .networkError)).attempts ≤ 5
    ∧ (confirmSwapLoop (fun _ => .networkError)).delays = [2000, 4000, 8000, 16000] := by
  obtain ⟨h1, h2, _⟩ := claim_C5 (fun _ => .networkError)
  refine ⟨h1, ?_⟩
  rw [h2]
  have ha : (confirmSwapLoop (fun _ => ConfAttempt.networkError)).attempts = 5 := rfl
  rw [ha]
  rfl

/-- Claim C6 (counterexample). An on-chain execution error on the first
confirmation attempt is not fatal: the loop sleeps 2000 ms, retries, and
the swap confirms on the second attempt (2 attempts, no error raised) —
contradicting the claim that such an error is raised immediately without
any further confirmation retry. -/
theorem claim_C6_counterexample :
    (fun i => if i = 0 then ConfAttempt.chainError else .confirmedOk) 0 = .chainError
    ∧ confirmSwapLoop (fun i => if i = 0 then ConfAttempt.chainError else .confirmedOk)
        = ⟨2, [2000], none⟩ :=
  ⟨rfl, rfl⟩

/-- Progress lemma: while every attempt up to index `k` fails and the retry
budget is not exhausted, the loop keeps going past attempt `k + 1`. -/
theorem confirmGo_progress (o : ℕ → ConfAttempt) :
    ∀ fuel i k, i + fuel = confirmMaxRetries → k + 1 < confirmMaxRetries → i ≤ k →
      (∀ j, j ≤ k → o j ≠ .confirmedOk) →
      k + 2 ≤ (confirmGo o i fuel).attempts := by
  intro fuel
  induction fuel with
  | zero =>
    intro i k hi hk hik _
    simp only [confirmMaxRetries] at hi hk
    omega
  | succ f ih =>
    intro i k hi hk hik hfail
    have hne : o i ≠ .confirmedOk := hfail i hik
    rcases ho : o i with _ | _ | _
    · exact absurd ho hne
    · rw [confirmGo]
      simp only [ho]
      have hf : f ≠ 0 := by
        intro h0
        simp only [confirmMaxRetries] at hi hk
        omega
      rw [if_neg hf]
      rcases Nat.lt_or_ge i k with hlt | hge
      · simpa using ih (i + 1) k (by omega) hk (by omega) hfail
      · have hik' : i = k := by omega
        have := (confirmGo_spec o f (i + 1) (by omega) (by omega)).1.1
        simpa using by omega
    · rw [confirmGo]
      simp only [ho]
      have hf : f ≠ 0 := by
        intro h0
        simp only [confirmMaxRetries] at hi hk
        omega
      rw [if_neg hf]
      rcases Nat.lt_or_ge i k with hlt | hge
      · simpa using ih (i + 1) k (by omega) hk (by omega) hfail
      · have hik' : i = k := by omega
        have := (confirmGo_spec o f (i + 1) (by omega) (by omega)).1.1
        simpa using by omega

/-- Claim C6 (amended). An on-chain execution error reported during
confirmation is caught by the loop's own catch and retried with back-off
like any other confirmation failure: if attempt `k + 1` (1-indexed) reports
an on-chain error, the first `k + 1` attempts all failed and fewer than 5
attempts have been used, then at least one further confirmation attempt is
made; the error is raised only when it occurs on the 5th attempt. -/
theorem claim_C6_amended (o : ℕ → ConfAttempt) (k : ℕ) (hk : k + 1 < 5)
    (hfail : ∀ j, j ≤ k → o j ≠ .confirmedOk) (hchain : o k = .chainError) :
    k + 2 ≤ (confirmSwapLoop o).attempts := by
  unfold confirmSwapLoop
  exact confirmGo_progress o confirmMaxRetries 0 k (by omega)
    (by simpa [confirmMaxRetries] using hk) (by omega) hfail

/-- Claim C6 (amended, witness). The amended theorem at the counterexample
oracle: after the on-chain error on attempt 1 a second attempt is made. -/
theorem claim_C6_witness :
    2 ≤ (confirmSwapLoop (fun i => if i = 0 then ConfAttempt.chainError
          else .confirmedOk)).attempts := by
  have h := claim_C6_amended (fun i => if i = 0 then ConfAttempt.chainError else .confirmedOk)
    0 (by norm_num)
    (by
      intro j hj
      have : j = 0 := by omega
      subst this
      decide)
    (by decide)
  simpa using h

/-- Claim C1. `getOptimalQuote` probes the tiers 50, 75, 100 bps in order:
it returns the quote of the earliest tier whose `getQuote` succeeds —
regardless of what later tiers would return — a later tier is reached only
when every earlier tier failed, and when all three tiers fail it raises the
wrapped `No valid quotes received` error. -/
theorem claim_C1 (fetch : ℕ → Except String (Option RawQuote)) :
    (∀ q, getQuote fetch 50 = .ok q → getOptimalQuote fetch = .ok q)
    ∧ (∀ e q, getQuote fetch 50 = .error e → getQuote fetch 75 = .ok q →
        getOptimalQuote fetch = .ok q)
    ∧ (∀ e e' q, getQuote fetch 50 = .error e → getQuote fetch 75 = .error e' →
        getQuote fetch 100 = .ok q → getOptimalQuote fetch = .ok q)
    ∧ (∀ e e' e'', getQuote fetch 50 = .error e → getQuote fetch 75 = .error e' →
        getQuote fetch 100 = .error e'' →
        getOptimalQuote fetch
          = .error ("Failed to get optimal quote: " ++ "No valid quotes received")) := by
  refine ⟨?_, ?_, ?_, ?_⟩
  · intro q h50
    simp [getOptimalQuote, getOptimalQuoteGo, MIN_SLIPPAGE_BPS, DEFAULT_SLIPPAGE_BPS,
      MAX_SLIPPAGE_BPS, h50]
  · intro e q h50 h75
    simp [getOptimalQuote, getOptimalQuoteGo, MIN_SLIPPAGE_BPS, DEFAULT_SLIPPAGE_BPS,
      MAX_SLIPPAGE_BPS, h50, h75]
  · intro e e' q h50 h75 h100
    simp [getOptimalQuote, getOptimalQuoteGo, MIN_SLIPPAGE_BPS, DEFAULT_SLIPPAGE_BPS,
      MAX_SLIPPAGE_BPS, h50, h75, h100]
  · intro e e' e'' h50 h75 h100
    simp [getOptimalQuote, getOptimalQuoteGo, MIN_SLIPPAGE_BPS, DEFAULT_SLIPPAGE_BPS,
      MAX_SLIPPAGE_BPS, h50, h75, h100]

/-- Claim C1 (witness). Scenario C shaped: tier 50 errors (HTTP 502), tier 75
carries a valid quote — the optimizer returns the tier-75 quote. -/
theorem claim_C1_witness :
    getQuote (fun s => if s = 50 then .error "HTTP 502"
        else .ok (some ⟨some "TokenIn", some "TokenOut", some 500, some 1000, some 0, some 2⟩))
        50
      = .error ("Failed to get quote: " ++ "HTTP 502")
    ∧ getOptimalQuote (fun s => if s = 50 then .error "HTTP 502"
        else .ok (some ⟨some "TokenIn", some "TokenOut", some 500, some 1000, some 0, some 2⟩))
      = .ok (enhanceQuote
          ⟨some "TokenIn", some "TokenOut", some 500, some 1000, some 0, some 2⟩ 75) :=
  ⟨rfl,
    (claim_C1 _).2.1 ("Failed to get quote: " ++ "HTTP 502")
      (enhanceQuote ⟨some "TokenIn", some "TokenOut", some 500, some 1000, some 0, some 2⟩ 75)
      rfl rfl⟩

/-- Invariant of the retry loop body: the request is tried from `attempt`
up to at most `retries + 1` times, and the inserted sleeps are exactly
`retryDelay * 2^(n-1)` for the failed non-final tries `n`. -/
theorem executeRequestGo_spec {D : Type} (c : ApiClient) (a : ℕ → Except ReqError D)
    (retries : ℕ) :
    ∀ fuel attempt, 1 ≤ attempt → attempt ≤ retries + 1 → attempt + fuel = retries + 2 →
      (attempt ≤ (executeRequestGo c a retries attempt fuel).tries
        ∧ (executeRequestGo c a retries attempt fuel).tries ≤ retries + 1)
      ∧ (executeRequestGo c a retries attempt fuel).sleeps
          = (List.range' (attempt - 1) ((executeRequestGo c a retries attempt fuel).tries - attempt)).map
              (fun n => c.retryDelay * 2 ^ n) := by
  intro fuel
  induction fuel with
  | zero => intro attempt h1 h2 h3; omega
  | succ f ih =>
    intro attempt h1 h2 h3
    rcases ha : a attempt with e | d
    · rw [executeRequestGo]
      simp only [ha]
      by_cases hstop : retries < attempt ∨ isRetryableError e = false
      · rw [if_pos hstop]
        refine ⟨⟨?_, ?_⟩, by simp⟩
        · show attempt ≤ attempt; omega
        · show attempt ≤ retries + 1; omega
      · rw [if_neg hstop]
        push_neg at hstop
        have hrec := ih (attempt + 1) (by omega) (by omega) (by omega)
        obtain ⟨⟨hr1, hr2⟩, hr3⟩ := hrec
        refine ⟨⟨by simpa using by omega, by simpa using hr2⟩, ?_⟩
        simp only []
        rw [hr3]
        have hlen : (executeRequestGo c a retries (attempt + 1) f).tries - attempt
            = ((executeRequestGo c a retries (attempt + 1) f).tries - (attempt + 1)) + 1 := by
          omega
        rw [hlen, List.range'_succ, List.map_cons]
        have : attempt - 1 + 1 = (attempt + 1) - 1 := by omega
        rw [this]
    · rw [executeRequestGo]
      simp only [ha]
      refine ⟨⟨?_, ?_⟩, by simp⟩
      · show attempt ≤ attempt; omega
      · show attempt ≤ retries + 1; omega

/-- Claim C2. `executeRequest` tries the request at most `r + 1` times where
`r` is the per-call override when given and the configured maximum
otherwise, and the sleep before try `n + 1` is `retryDelay * 2^(n-1)`; in
particular Scenario B (two HTTP-500 failures, then success, with
`maxRetries = 3`, `retryDelay = 2000`) makes 3 tries sleeping 2000 ms then
4000 ms. -/
theorem claim_C2 {D : Type} (c : ApiClient) (a : ℕ → Except ReqError D) (cr : Option ℕ) :
    ((executeRequest c a cr).tries ≤ cr.getD c.maxRetries + 1
      ∧ (executeRequest c a cr).sleeps
          = (List.range ((executeRequest c a cr).tries - 1)).map
              (fun n => c.retryDelay * 2 ^ n))
    ∧ executeRequest ⟨3, 2000⟩
        (fun n => if n ≤ 2 then .error ⟨none, some 500, true⟩ else .ok ()) none
      = ⟨3, [2000, 4000], .ok ()⟩ := by
  constructor
  · obtain ⟨⟨h1, h2⟩, h3⟩ := executeRequestGo_spec c a (cr.getD c.maxRetries)
      (cr.getD c.maxRetries + 1) 1 (by omega) (by omega) (by omega)
    refine ⟨h2, ?_⟩
    rw [show executeRequest c a cr
        = executeRequestGo c a (cr.getD c.maxRetries) 1 (cr.getD c.maxRetries + 1) from rfl]
    rw [h3, List.range_eq_range']
  · rfl

/-- Claim C3. `isRetryableError` classifies a failure retryable exactly when
it is a transport-level connection reset / host-not-found / connection
refused, a request timeout (`ECONNABORTED`), or an HTTP response with
status 429, 408 or ≥ 500; and a non-retryable failure short-circuits the
loop: if try `k` fails non-retryably (after retryable failures only), the
request stops after exactly `k` tries, sleeps only before tries `2..k`,
and raises the wrapped error immediately. -/
theorem claim_C3 :
    (∀ e : ReqError, isRetryableError e = true ↔ retryableSpec e)
    ∧ (∀ (D : Type) (c : ApiClient) (a : ℕ → Except ReqError D) (cr : Option ℕ)
        (k : ℕ) (e : ReqError),
        1 ≤ k → k ≤ cr.getD c.maxRetries + 1 →
        a k = .error e → isRetryableError e = false →
        (∀ i, 1 ≤ i → i < k → ∃ e', a i = .error e' ∧ isRetryableError e' = true) →
        executeRequest c a cr
          = ⟨k, (List.range (k - 1)).map (fun n => c.retryDelay * 2 ^ n),
              .error (formatError e)⟩) := by
  constructor
  · intro e
    rcases e with ⟨code, status, hasReq⟩
    unfold isRetryableError retryableSpec
    rcases status with _ | s
    · simp only []
      split_ifs with hc1 hc2 <;> simp <;> tauto
    · simp only []
      split_ifs with hc1 hc2 hs
      · simp
        tauto
      · simp
        tauto
      · simp
        tauto
      · simp
        push_neg at hc1 hs
        tauto
  · intro D c a cr k e hk1 hk2 hak hfatal hpre
    suffices h : ∀ fuel attempt, 1 ≤ attempt → attempt ≤ k →
        attempt + fuel = cr.getD c.maxRetries + 2 →
        executeRequestGo c a (cr.getD c.maxRetries) attempt fuel
          = ⟨k, (List.range' (attempt - 1) (k - attempt)).map
              (fun n => c.retryDelay * 2 ^ n), .error (formatError e)⟩ by
      have := h (cr.getD c.maxRetries + 1) 1 (by omega) hk1 (by omega)
      rw [show executeRequest c a cr
          = executeRequestGo c a (cr.getD c.maxRetries) 1 (cr.getD c.maxRetries + 1) from rfl,
        this, List.range_eq_range']
    intro fuel
    induction fuel with
    | zero => intro attempt h1 h2 h3; omega
    | succ f ih =>
      intro attempt h1 h2 h3
      rcases Nat.lt_or_ge attempt k with hlt | hge
      · obtain ⟨e', hae', hret'⟩ := hpre attempt h1 hlt
        rw [executeRequestGo]
        simp only [hae']
        rw [if_neg (by
          push_neg
          exact ⟨by omega, by rw [hret']; simp⟩)]
        rw [ih (attempt + 1) (by omega) (by omega) (by omega)]
        have hlen : k - attempt = (k - (attempt + 1)) + 1 := by omega
        rw [hlen, List.range'_succ, List.map_cons]
        have : attempt - 1 + 1 = (attempt + 1) - 1 := by omega
        rw [this]
      · have heq : attempt = k := by omega
        subst heq
        rw [executeRequestGo]
        simp only [hak]
        rw [if_pos (Or.inr hfatal)]
        simp

/-- Claim C3 (witness). A first-try HTTP 400 is classified non-retryable and
`executeRequest` stops after that single try, raising the wrapped error. -/
theorem claim_C3_witness :
    isRetryableError ⟨none, some 400, true⟩ = false
    ∧ executeRequest (D := Unit) ⟨3, 2000⟩
        (fun n => if n = 1 then .error ⟨none, some 400, true⟩ else .ok ()) none
      = ⟨1, [], .error (.httpOther 400)⟩ := by
  refine ⟨rfl, ?_⟩
  have h := claim_C3.2 Unit ⟨3, 2000⟩
    (fun n => if n = 1 then .error ⟨none, some 400, true⟩ else .ok ()) none 1
    ⟨none, some 400, true⟩ (by omega) (by norm_num) rfl rfl
    (by intro i hi1 hi2; omega)
  simpa using h

/-- Claim C8. Fee collection never invalidates the swap: `collectFeesStep` is
total with status in {success, failed, skipped}; it skips (attempting no
fee transaction — the result is independent of the send outcome) exactly
when the fetched balance is below fee + 10000-lamport buffer; it succeeds
with the fee transaction id when the transfer confirms; any failure
(balance fetch or transfer) yields status failed; and in every case the
overall result reports the swap successful with the swap's own signature
and the fee outcome attached. -/
theorem claim_C8 (mint : String) (amt : ℕ) (bal : Except String ℤ)
    (send : Except String String) (sig : String) (newBal : ℤ) :
    ((collectFeesStep mint amt bal send).status = .success
      ∨ (collectFeesStep mint amt bal send).status = .failed
      ∨ (collectFeesStep mint amt bal send).status = .skipped)
    ∧ (∀ b, bal = .ok b → b < feeAmountLamports mint amt + 10000 →
        (collectFeesStep mint amt bal send).status = .skipped
        ∧ ∀ send', collectFeesStep mint amt bal send' = collectFeesStep mint amt bal send)
    ∧ (∀ b s', bal = .ok b → ¬ b < feeAmountLamports mint amt + 10000 → send = .ok s' →
        (collectFeesStep mint amt bal send).status = .success
        ∧ (collectFeesStep mint amt bal send).transactionId = some s')
    ∧ (∀ b e', bal = .ok b → ¬ b < feeAmountLamports mint amt + 10000 → send = .error e' →
        (collectFeesStep mint amt bal send).status = .failed)
    ∧ (∀ e', bal = .error e' → (collectFeesStep mint amt bal send).status = .failed)
    ∧ (executeSwapServiceTail true sig mint amt bal send newBal).status = "success"
    ∧ (executeSwapServiceTail true sig mint amt bal send newBal).transactionId = sig
    ∧ (executeSwapServiceTail true sig mint amt bal send newBal).feeCollection
        = some (collectFeesStep mint amt bal send) := by
  refine ⟨?_, ?_, ?_, ?_, ?_, rfl, rfl, rfl⟩
  · rcases h : (collectFeesStep mint amt bal send).status <;> tauto
  · intro b hb hlt
    subst hb
    constructor
    · simp [collectFeesStep, if_pos hlt]
    · intro send'
      simp [collectFeesStep, if_pos hlt]
  · intro b s' hb hge hsend
    subst hb
    subst hsend
    simp [collectFeesStep, if_neg hge]
  · intro b e' hb hge hsend
    subst hb
    subst hsend
    simp [collectFeesStep, if_neg hge]
  · intro e' hb
    subst hb
    simp [collectFeesStep]

/-- Claim C8 (witness). Scenario D shaped: a signer balance of 50000 lamports
cannot cover the 100000-lamport fee plus buffer, so the fee outcome is
skipped, while the swap result still carries the swap's own signature. -/
theorem claim_C8_witness :
    (collectFeesStep "EPjFWdd5AufqSSqeM2qN1xzybapC8G4wEGGkZwyTDt1v" 1000000000
        (.ok 50000) (.ok "FEETX")).status = .skipped
    ∧ (executeSwapServiceTail true "SWAPTX" "EPjFWdd5AufqSSqeM2qN1xzybapC8G4wEGGkZwyTDt1v"
        1000000000 (.ok 50000) (.ok "FEETX") 0).transactionId = "SWAPTX" := by
  obtain ⟨_, hskip, _, _, _, _, htx, _⟩ :=
    claim_C8 "EPjFWdd5AufqSSqeM2qN1xzybapC8G4wEGGkZwyTDt1v" 1000000000
      (.ok 50000) (.ok "FEETX") "SWAPTX" 0
  refine ⟨(hskip 50000 rfl ?_).1, htx⟩
  rw [feeAmount_nonSol _ (by decide) 1000000000]
  norm_num [minimumFeeLamports]

/-- The chunking loop of `calculateOptimalChunks` produces a non-empty list
of positive chunks bounded by the chunk size and summing to the remaining
amount. -/
theorem chunksGo_spec (cs : ℕ) (hcs : 0 < cs) :
    ∀ remaining, 0 < remaining →
      chunksGo cs hcs remaining ≠ []
      ∧ (∀ ch ∈ chunksGo cs hcs remaining, 0 < ch ∧ ch ≤ cs)
      ∧ (chunksGo cs hcs remaining).sum = remaining := by
  intro remaining
  induction remaining using Nat.strong_induction_on with
  | _ remaining ih =>
    intro hpos
    rw [chunksGo, dif_neg (by omega)]
    simp only []
    have hc1 : 0 < min cs remaining := by omega
    have hc2 : min cs remaining ≤ cs := Nat.min_le_left _ _
    have hc3 : min cs remaining ≤ remaining := Nat.min_le_right _ _
    rcases Nat.eq_zero_or_pos (remaining - min cs remaining) with h0 | hpos2
    · have hz : chunksGo cs hcs (remaining - min cs remaining) = [] := by
        rw [h0, chunksGo]
        simp
      rw [hz]
      refine ⟨by simp, ?_, ?_⟩
      · intro ch hch
        simp only [List.mem_singleton] at hch
        subst hch
        exact ⟨hc1, hc2⟩
      · simp
        omega
    · obtain ⟨ih1, ih2, ih3⟩ := ih (remaining - min cs remaining) (by omega) hpos2
      refine ⟨by simp, ?_, ?_⟩
      · intro ch hch
        rcases List.mem_cons.mp hch with h | h
        · subst h
          exact ⟨hc1, hc2⟩
        · exact ih2 ch h
      · rw [List.sum_cons, ih3]
        omega

/-- Claim C9. `calculateOptimalChunks` terminates on every positive total and
returns a non-empty list of chunks that are positive, bounded by the
selected chunk size (`MAX_CHUNK_SIZE`, halved above price impact 2,
quartered above 4), and sum exactly to the total. -/
theorem claim_C9 (totalAmount : ℕ) (priceImpactPct : ℚ) (hpos : 0 < totalAmount) :
    chunkSizeFor priceImpactPct = specSelectedChunkSize priceImpactPct
    ∧ calculateOptimalChunks totalAmount priceImpactPct ≠ []
    ∧ (∀ ch ∈ calculateOptimalChunks totalAmount priceImpactPct,
        0 < ch ∧ ch ≤ chunkSizeFor priceImpactPct)
    ∧ (calculateOptimalChunks totalAmount priceImpactPct).sum = totalAmount := by
  obtain ⟨h1, h2, h3⟩ := chunksGo_spec (chunkSizeFor priceImpactPct)
    (by unfold chunkSizeFor MAX_CHUNK_SIZE; split_ifs <;> norm_num) totalAmount hpos
  exact ⟨by unfold chunkSizeFor specSelectedChunkSize; split_ifs <;> rfl, h1, h2, h3⟩

/-- Claim C9 (witness). 250000 tokens at price impact 3 (chunk size halved to
50000) split into five chunks of 50000 summing back to 250000. -/
theorem claim_C9_witness :
    (0 : ℕ) < 250000 ∧ (calculateOptimalChunks 250000 3).sum = 250000 := by
  exact ⟨by norm_num, (claim_C9 250000 3 (by norm_num)).2.2.2⟩

/-- Claim C10. `getWalletInfo(forceRefresh = false)` returns the stored
wallet info unchanged and issues no HTTP request whenever a previous fetch
stored info strictly less than 30000 ms ago; with `forceRefresh = true`, or
once the 30-second window has elapsed, an HTTP request is issued. -/
theorem claim_C10 :
    (∀ (s : WalletState) (w : WalletInfo) (t now : ℕ)
        (fetch : Except String WalletApiResponse),
      s.walletInfo = some w → s.lastBalanceCheck = some t → now - t < 30000 →
      getWalletInfo s false now fetch = (.ok w, s, false))
    ∧ (∀ (s : WalletState) (now : ℕ) (fetch : Except String WalletApiResponse),
      (getWalletInfo s true now fetch).2.2 = true)
    ∧ (∀ (s : WalletState) (t now : ℕ) (fetch : Except String WalletApiResponse),
      s.lastBalanceCheck = some t → 30000 ≤ now - t →
      (getWalletInfo s false now fetch).2.2 = true) := by
  refine ⟨?_, ?_, ?_⟩
  · intro s w t now fetch hw ht hfresh
    have hvalid : isBalanceCacheValid s now = true := by
      unfold isBalanceCacheValid
      rw [ht]
      simp [hfresh]
    rcases s with ⟨wi, lbc⟩
    simp only [] at hw
    subst hw
    simp [getWalletInfo, hvalid]
  · intro s now fetch
    rcases s with ⟨wi, lbc⟩
    rcases wi with _ | w
    · rcases fetch with e | resp
      · simp [getWalletInfo]
      · rcases hpk : resp.publicKey with _ | pk <;> simp [getWalletInfo, hpk]
    · rcases fetch with e | resp
      · simp [getWalletInfo]
      · rcases hpk : resp.publicKey with _ | pk <;> simp [getWalletInfo, hpk]
  · intro s t now fetch ht hstale
    have hv : isBalanceCacheValid s now = false := by
      unfold isBalanceCacheValid
      rw [ht]
      simp
      omega
    rcases s with ⟨wi, lbc⟩
    rcases wi with _ | w
    · rcases fetch with e | resp
      · simp [getWalletInfo]
      · rcases hpk : resp.publicKey with _ | pk <;> simp [getWalletInfo, hpk]
    · rcases fetch with e | resp
      · simp [getWalletInfo, hv]
      · rcases hpk : resp.publicKey with _ | pk <;> simp [getWalletInfo, hv, hpk]

/-- Claim C10 (witness). A cached wallet info fetched at t = 1000 served again
at t = 20000 (within 30 s): the stored value is returned unchanged and no
HTTP request is issued; and with the cache expired at t = 40000 an HTTP
request is issued. -/
theorem claim_C10_witness :
    getWalletInfo ⟨some ⟨"PK", 1, 1000000000, 1000⟩, some 1000⟩ false 20000 (.error "down")
      = (.ok ⟨"PK", 1, 1000000000, 1000⟩,
          ⟨some ⟨"PK", 1, 1000000000, 1000⟩, some 1000⟩, false)
    ∧ (getWalletInfo ⟨some ⟨"PK", 1, 1000000000, 1000⟩, some 1000⟩ false 40000
        (.error "down")).2.2 = true :=
  ⟨claim_C10.1 _ _ 1000 20000 _ rfl rfl (by norm_num),
    claim_C10.2.2 _ 1000 40000 _ rfl (by norm_num)⟩

end TokenSeller
